import Mathlib

/-!
Verification of the mongo-transfert collection-transfer engine.

The Go source is shallowly embedded: each database interaction is modelled
through an environment (`Env`) that fixes what the two databases would answer
(existence of the destination collection, the source's index descriptions,
the source documents) and which operations fail.  The per-collection transfer
(`transferCollection`, from pkg/activities/mongo_utils.go) is a pure function
of that environment returning the document count, the terminal error (if any)
and the trace of database operations issued, in order.
-/

namespace MongoTransfert

/-- Errors the transfer pipeline can surface (mirror of the wrapped `fmt.Errorf`
messages in the Go source). -/
inductive Err where
  | connectionError
  | existenceCheckError
  | conflictError
  | invalidIndexKeyFormat
  | indexReadError
  | dropError
  | createIndexesError
  | countError
  | findError
  | decodeError
  | insertError
  | listCollectionsError
  deriving DecidableEq, Repr

/-- One index description as returned by the source database's
`Indexes().List` cursor.  `key` is the native ordered (field, direction)
sequence of the index; `keyIter` is the order in which a Go `range` loop
visits the entries of the `bson.M` map the code decodes `index["key"]`
into (Go map iteration order is unspecified, so `keyIter` is an arbitrary
permutation of `key`).  `keyOk` models whether the `index["key"].(bson.M)`
type assertion succeeds. -/
structure RawIndex where
  name : String
  keyOk : Bool
  key : List (String × Int)
  keyIter : List (String × Int)
  unique : Option Bool
  sparse : Option Bool
  expireAfterSeconds : Option Int
  partialFilterExpression : Option String
  deriving DecidableEq, Repr

/-- Mirror of `mongo.IndexModel` as assembled by `getCollectionIndexes`:
the ordered key document plus the options that were set. -/
structure IndexModel where
  keys : List (String × Int)
  unique : Option Bool
  sparse : Option Bool
  expireAfterSeconds : Option Int
  partialFilterExpression : Option String
  background : Option Bool
  deriving DecidableEq, Repr

/-- Database operations issued by one collection transfer, in order.
`drop`, `createIndexes` and `insert` mutate the destination. -/
inductive Event where
  | listCollections
  | listIndexes
  | drop
  | createIndexes (specs : List IndexModel)
  | countDocs
  | find
  | insert (n : Nat)
  deriving DecidableEq, Repr

/-- Does this operation mutate the destination database? -/
def Event.mutatesDestination : Event → Bool
  | .drop => true
  | .createIndexes _ => true
  | .insert _ => true
  | _ => false

/-- Number of bulk-insert operations in a trace. -/
def countInserts : List Event → Nat
  | [] => 0
  | Event.insert _ :: rest => countInserts rest + 1
  | _ :: rest => countInserts rest

/-- Environment of one collection transfer: what the databases would answer
and which calls fail.  `insertFails k` means the k-th `InsertMany` call
(0-based) fails; `decodeFails i` means decoding the i-th source document
fails. -/
structure Env where
  destExists : Bool
  overwrite : Bool
  batchSize : Int
  listCollectionsFails : Bool
  listIndexesFails : Bool
  dropFails : Bool
  createIndexesFails : Bool
  countFails : Bool
  findFails : Bool
  sourceRawIndexes : List RawIndex
  sourceDocs : List Nat
  decodeFails : Nat → Bool
  insertFails : Nat → Bool

/-- Result of one collection transfer: the `int` return value, the `error`
return value, and the trace of issued database operations. -/
structure TResult where
  count : Nat
  err : Option Err
  trace : List Event
  deriving DecidableEq, Repr

/-- `if batchSize <= 0 { batchSize = 100 }` at the top of `transferCollection`. -/
def effBatch (b : Int) : Nat :=
  if b ≤ 0 then 100 else b.toNat

/-- Embedding of `getCollectionIndexes` (pkg/activities/mongo_utils.go):
skip the `_id_` index, fail on an unrecognized key shape, and otherwise build
an `IndexModel` whose `Keys` document is produced by ranging over the decoded
`bson.M` map — i.e. in `keyIter` order, not necessarily the native `key`
order — carrying over the `unique`, `sparse`, `expireAfterSeconds` and
`partialFilterExpression` attributes exactly when present. -/
def getCollectionIndexes : List RawIndex → Except Err (List IndexModel)
  | [] => .ok []
  | raw :: rest =>
    if raw.name = "_id_" then getCollectionIndexes rest
    else if !raw.keyOk then .error .invalidIndexKeyFormat
    else
      match getCollectionIndexes rest with
      | .error e => .error e
      | .ok models =>
        .ok ({ keys := raw.keyIter
             , unique := raw.unique
             , sparse := raw.sparse
             , expireAfterSeconds := raw.expireAfterSeconds
             , partialFilterExpression := raw.partialFilterExpression
             , background := none } :: models)

/-- The batched copy loop of `transferCollection` (cursor iteration, batch
accumulation, `InsertMany` at the batch-size threshold, final flush).
Arguments after `B`: remaining cursor documents, current batch, running
`totalTransferred`, current document index, current batch (insert) index. -/
def copyLoop (decodeFails insertFails : Nat → Bool) (B : Nat) :
    List Nat → List Nat → Nat → Nat → Nat → TResult
  | [], batch, total, _, bIdx =>
    if 0 < batch.length then
      if insertFails bIdx then ⟨total, some .insertError, [.insert batch.length]⟩
      else ⟨total + batch.length, none, [.insert batch.length]⟩
    else ⟨total, none, []⟩
  | d :: rest, batch, total, docIdx, bIdx =>
    if decodeFails docIdx then ⟨total, some .decodeError, []⟩
    else
      let batch' := batch ++ [d]
      if B ≤ batch'.length then
        if insertFails bIdx then ⟨total, some .insertError, [.insert batch'.length]⟩
        else
          let r := copyLoop decodeFails insertFails B rest [] (total + batch'.length)
                     (docIdx + 1) (bIdx + 1)
          ⟨r.count, r.err, .insert batch'.length :: r.trace⟩
      else copyLoop decodeFails insertFails B rest batch' total (docIdx + 1) bIdx

/-- Steps of `transferCollection` from the document count on: count the
source documents, short-circuit on an empty source, open the cursor, and run
the batched copy loop. -/
def transferAfterIndexes (env : Env) (B : Nat) : TResult :=
  if env.countFails then ⟨0, some .countError, [.countDocs]⟩
  else if env.sourceDocs.length == 0 then ⟨0, none, [.countDocs]⟩
  else if env.findFails then ⟨0, some .findError, [.countDocs, .find]⟩
  else
    let r := copyLoop env.decodeFails env.insertFails B env.sourceDocs [] 0 0 0
    ⟨r.count, r.err, .countDocs :: .find :: r.trace⟩

/-- Steps of `transferCollection` from index creation on: when any index was
read, set `Background(true)` on each spec and issue one `CreateMany`. -/
def transferAfterDrop (env : Env) (B : Nat) (indexes : List IndexModel) : TResult :=
  if 0 < indexes.length then
    let indexes' := indexes.map fun im => { im with background := some true }
    if env.createIndexesFails then
      ⟨0, some .createIndexesError, [.createIndexes indexes']⟩
    else
      let r := transferAfterIndexes env B
      ⟨r.count, r.err, .createIndexes indexes' :: r.trace⟩
  else transferAfterIndexes env B

/-- Steps of `transferCollection` from the (conditional) destructive drop on:
drop the destination collection only when it existed and overwrite is
enabled. -/
def transferAfterIndexRead (env : Env) (B : Nat) (indexes : List IndexModel) : TResult :=
  if env.destExists && env.overwrite then
    if env.dropFails then ⟨0, some .dropError, [.drop]⟩
    else
      let r := transferAfterDrop env B indexes
      ⟨r.count, r.err, .drop :: r.trace⟩
  else transferAfterDrop env B indexes

/-- Embedding of `transferCollection` (pkg/activities/mongo_utils.go):
default the batch size, check destination existence, apply the conflict
policy, read the source indexes, then drop / create indexes / count / copy. -/
def transferCollection (env : Env) : TResult :=
  let B := effBatch env.batchSize
  if env.listCollectionsFails then ⟨0, some .existenceCheckError, [.listCollections]⟩
  else if env.destExists && !env.overwrite then
    ⟨0, some .conflictError, [.listCollections]⟩
  else if env.listIndexesFails then
    ⟨0, some .indexReadError, [.listCollections, .listIndexes]⟩
  else
    match getCollectionIndexes env.sourceRawIndexes with
    | .error _ => ⟨0, some .indexReadError, [.listCollections, .listIndexes]⟩
    | .ok indexes =>
      let r := transferAfterIndexRead env B indexes
      ⟨r.count, r.err, .listCollections :: .listIndexes :: r.trace⟩

/-- Mirror of `models.CollectionTransferResult`. -/
structure CollectionTransferResult where
  collectionName : String
  documentsCount : Nat
  success : Bool
  errorMessage : Option Err
  deriving DecidableEq, Repr

/-- Mirror of `models.TransferResult`. -/
structure TransferResult where
  collectionResults : List CollectionTransferResult
  overallSuccess : Bool
  totalDocuments : Nat
  deriving DecidableEq, Repr

/-- Embedding of `activities.TransferCollection`
(pkg/activities/transfer_activities.go): connect to both sides, call the
inner `transferCollection`, and build the `CollectionTransferResult`.  Note
that on an inner error the function returns before `result.DocumentsCount`
is assigned, so the result keeps its zero value. -/
def TransferCollectionA (sourceConnectFails destConnectFails : Bool)
    (env : Env) (name : String) : CollectionTransferResult × Option Err :=
  let base : CollectionTransferResult :=
    { collectionName := name, documentsCount := 0, success := false, errorMessage := none }
  if sourceConnectFails then
    ({ base with errorMessage := some .connectionError }, some .connectionError)
  else if destConnectFails then
    ({ base with errorMessage := some .connectionError }, some .connectionError)
  else
    let r := transferCollection env
    match r.err with
    | some e => ({ base with errorMessage := some e }, some e)
    | none => ({ base with documentsCount := r.count, success := true }, none)

/-- One pool worker (the goroutine body in `runTransfer`, cmd/mongotransfert):
process the collection names this worker pulled from the channel, posting one
result per name whatever the outcome.  `connFails n` gives the
source/destination connection failures for the `TransferCollection` call on
collection `n`, and `envOf n` its database environment. -/
def runWorker (envOf : String → Env) (connFails : String → Bool × Bool)
    (names : List String) : List CollectionTransferResult :=
  names.map fun n => (TransferCollectionA (connFails n).1 (connFails n).2 (envOf n) n).1

/-- The whole worker pool: `assignment` lists, per worker, the collection
names that worker consumed from the shared channel (channel semantics make
the concatenation a permutation of the input names); the result channel
holds every posted result. -/
def poolRun (envOf : String → Env) (connFails : String → Bool × Bool)
    (assignment : List (List String)) : List CollectionTransferResult :=
  (assignment.map (runWorker envOf connFails)).flatten

/-- `if workerCount <= 0 { workerCount = 3 }` in `runTransfer`. -/
def effWorkers (w : Int) : Int :=
  if w ≤ 0 then 3 else w

/-- The result-collection loop at the end of `runTransfer`: append every
received result, sum the document counts, and clear the success flag on any
failed collection. -/
def collectResults (results : List CollectionTransferResult) : TransferResult :=
  { collectionResults := results
  , overallSuccess := results.foldl (fun acc r => acc && r.success) true
  , totalDocuments := results.foldl (fun acc r => acc + r.documentsCount) 0 }

/-- Embedding of `activities.GetCollections`: use the explicitly requested
collection names when non-empty, otherwise list the source database's
collections. -/
def GetCollections (paramsCollections sourceDbCollections : List String)
    (connectFails listFails : Bool) : Except Err (List String) :=
  if connectFails then .error .connectionError
  else if 0 < paramsCollections.length then .ok paramsCollections
  else if listFails then .error .listCollectionsError
  else .ok sourceDbCollections

/-- Embedding of `runTransfer` (cmd/mongotransfert/main.go): validate
connections, resolve the collection set, return the initial
`{OverallSuccess: true}` result when it is empty, and otherwise dispatch the
pool and aggregate its results. -/
def runTransfer (validateFails : Bool)
    (paramsCollections sourceDbCollections : List String)
    (connectFails listFails : Bool)
    (envOf : String → Env) (connFails : String → Bool × Bool)
    (assignment : List (List String)) : Except Err TransferResult :=
  if validateFails then .error .connectionError
  else
    match GetCollections paramsCollections sourceDbCollections connectFails listFails with
    | .error e => .error e
    | .ok collections =>
      if collections.length == 0 then .ok ⟨[], true, 0⟩
      else .ok (collectResults (poolRun envOf connFails assignment))

/-- The ordered key sequences of the indexes created on the destination
during a transfer, extracted from its operation trace. -/
def createdIndexKeys : List Event → List (List (String × Int))
  | [] => []
  | Event.createIndexes specs :: rest => specs.map IndexModel.keys ++ createdIndexKeys rest
  | _ :: rest => createdIndexKeys rest

/-- A baseline environment: destination collection absent, batch size 2,
five source documents, no failures. -/
def envOk : Env :=
  { destExists := false, overwrite := false, batchSize := 2
  , listCollectionsFails := false, listIndexesFails := false, dropFails := false
  , createIndexesFails := false, countFails := false, findFails := false
  , sourceRawIndexes := [], sourceDocs := [1, 2, 3, 4, 5]
  , decodeFails := fun _ => false, insertFails := fun _ => false }

/-- Environment with one compound source index `a_1_b_-1` whose native ordered
key is `[(a,1), (b,-1)]`, in a run where Go map iteration over the decoded
`bson.M` key document happens to visit `b` before `a` (map iteration order is
unspecified in Go, so this order can occur). -/
def envC1 : Env :=
  { envOk with
    sourceDocs := []
  , sourceRawIndexes :=
      [{ name := "a_1_b_-1", keyOk := true
       , key := [("a", 1), ("b", -1)], keyIter := [("b", -1), ("a", 1)]
       , unique := some true, sparse := none
       , expireAfterSeconds := none, partialFilterExpression := none }] }

/-- Environment whose second bulk insert (batch index 1) fails: the copy
stops after the first batch of 2 documents. -/
def envC2 : Env :=
  { envOk with insertFails := fun j => j == 1 }

/-! ### Lemmas about the copy loop -/

theorem countInserts_listCollections (tr : List Event) :
    countInserts (Event.listCollections :: tr) = countInserts tr := rfl

theorem countInserts_listIndexes (tr : List Event) :
    countInserts (Event.listIndexes :: tr) = countInserts tr := rfl

theorem countInserts_countDocs (tr : List Event) :
    countInserts (Event.countDocs :: tr) = countInserts tr := rfl

theorem countInserts_find (tr : List Event) :
    countInserts (Event.find :: tr) = countInserts tr := rfl

theorem countInserts_drop (tr : List Event) :
    countInserts (Event.drop :: tr) = countInserts tr := rfl

theorem countInserts_createIndexes (s : List IndexModel) (tr : List Event) :
    countInserts (Event.createIndexes s :: tr) = countInserts tr := rfl

theorem countInserts_insert (n : Nat) (tr : List Event) :
    countInserts (Event.insert n :: tr) = countInserts tr + 1 := rfl

/-- A copy loop that terminates without error transfers every remaining
document and issues one insert per started batch:
`ceil((buffered + remaining) / B)` of them. -/
theorem copyLoop_success (df inf : Nat → Bool) (B : Nat) (hB : 0 < B) :
    ∀ (docs batch : List Nat) (total docIdx bIdx : Nat), batch.length < B →
    (copyLoop df inf B docs batch total docIdx bIdx).err = none →
    (copyLoop df inf B docs batch total docIdx bIdx).count
        = total + batch.length + docs.length ∧
    countInserts (copyLoop df inf B docs batch total docIdx bIdx).trace
        = (batch.length + docs.length + B - 1) / B := by
  intro docs
  induction docs with
  | nil =>
    intro batch total docIdx bIdx hlt herr
    simp only [copyLoop] at herr ⊢
    by_cases hb : 0 < batch.length
    · simp only [if_pos hb] at herr ⊢
      by_cases hf : inf bIdx = true
      · simp [hf] at herr
      · simp only [Bool.not_eq_true] at hf
        simp only [hf, Bool.false_eq_true, if_false] at herr ⊢
        have hdiv : (batch.length + B - 1) / B = 1 :=
          Nat.div_eq_of_lt_le (by omega) (by omega)
        refine ⟨by simp, ?_⟩
        simpa [countInserts] using hdiv.symm
    · simp only [if_neg hb] at herr ⊢
      have hb0 : batch.length = 0 := by omega
      have hdiv : (B - 1) / B = 0 := Nat.div_eq_of_lt (by omega)
      refine ⟨by simp [hb0], ?_⟩
      simpa [countInserts, hb0] using hdiv.symm
  | cons d rest ih =>
    intro batch total docIdx bIdx hlt herr
    simp only [copyLoop] at herr ⊢
    by_cases hd : df docIdx = true
    · simp [hd] at herr
    · simp only [Bool.not_eq_true] at hd
      simp only [hd, Bool.false_eq_true, if_false] at herr ⊢
      by_cases hfull : B ≤ (batch ++ [d]).length
      · simp only [if_pos hfull] at herr ⊢
        by_cases hf : inf bIdx = true
        · simp [hf] at herr
        · simp only [Bool.not_eq_true] at hf
          simp only [hf, Bool.false_eq_true, if_false] at herr ⊢
          simp only [List.length_append, List.length_cons, List.length_nil] at herr hfull ⊢
          rcases ih [] (total + (batch.length + (0 + 1))) (docIdx + 1) (bIdx + 1)
            (by simpa using hB) herr with ⟨hc, hi⟩
          have hBeq : batch.length + 1 = B := by omega
          constructor
          · simp only [hc, List.length_nil]
            omega
          · simp only [countInserts_insert, hi, List.length_nil]
            have hnum : batch.length + (rest.length + 1) + B - 1
                = (0 + rest.length + B - 1) + B := by omega
            rw [hnum, Nat.add_div_right _ hB]
      · simp only [if_neg hfull] at herr ⊢
        simp only [List.length_append, List.length_cons, List.length_nil] at hfull
        rcases ih (batch ++ [d]) total (docIdx + 1) bIdx
          (by simp only [List.length_append, List.length_cons, List.length_nil]; omega)
          herr with ⟨hc, hi⟩
        constructor
        · simp only [hc, List.length_append, List.length_cons, List.length_nil]
          omega
        · simp only [hi, List.length_append, List.length_cons, List.length_nil]
          congr 1
          omega

/-- When the k-th bulk insert is the (first) failing one and that batch is
actually reached, the copy loop stops with `insertError` and its returned
count is the documents inserted by the earlier, successful batches — all of
them full, hence `(k - bIdx) * B` more than the running total. -/
theorem copyLoop_insert_fail (B k : Nat) (hB : 0 < B) :
    ∀ (docs batch : List Nat) (total docIdx bIdx : Nat),
    batch.length < B → bIdx ≤ k → (k - bIdx) * B < batch.length + docs.length →
    (copyLoop (fun _ => false) (fun j => j == k) B docs batch total docIdx bIdx).count
        = total + (k - bIdx) * B ∧
    (copyLoop (fun _ => false) (fun j => j == k) B docs batch total docIdx bIdx).err
        = some Err.insertError := by
  intro docs
  induction docs with
  | nil =>
    intro batch total docIdx bIdx hlt hle hreach
    simp only [List.length_nil, Nat.add_zero] at hreach
    have hbpos : 0 < batch.length := by omega
    have hk : k = bIdx := by
      by_contra hne
      have h1 : 1 ≤ k - bIdx := by omega
      have : B ≤ (k - bIdx) * B := by
        calc B = 1 * B := (Nat.one_mul B).symm
        _ ≤ (k - bIdx) * B := Nat.mul_le_mul_right B h1
      omega
    subst hk
    simp only [copyLoop, if_pos hbpos, beq_self_eq_true, if_true, Nat.sub_self,
      Nat.zero_mul, Nat.add_zero]
    exact ⟨trivial, trivial⟩
  | cons d rest ih =>
    intro batch total docIdx bIdx hlt hle hreach
    simp only [List.length_cons] at hreach
    simp only [copyLoop, Bool.false_eq_true, if_false]
    simp only [List.length_append, List.length_cons, List.length_nil]
    by_cases hfull : B ≤ batch.length + (0 + 1)
    · simp only [if_pos hfull]
      have hBeq : batch.length + 1 = B := by omega
      by_cases heq : bIdx = k
      · subst heq
        simp only [beq_self_eq_true, if_true, Nat.sub_self, Nat.zero_mul, Nat.add_zero]
        exact ⟨trivial, trivial⟩
      · have hbne : (bIdx == k) = false := by simp [heq]
        simp only [hbne, Bool.false_eq_true, if_false]
        have hlt' : bIdx < k := by omega
        have hid : (k - bIdx) * B = (k - (bIdx + 1)) * B + B := by
          have h1 : k - bIdx = (k - (bIdx + 1)) + 1 := by omega
          rw [h1, Nat.succ_mul]
        rcases ih [] (total + (batch.length + (0 + 1))) (docIdx + 1) (bIdx + 1)
          (by simpa using hB) (by omega)
          (by simp only [List.length_nil]; omega) with ⟨hc, he⟩
        refine ⟨?_, he⟩
        rw [hc]
        omega
    · simp only [if_neg hfull]
      rcases ih (batch ++ [d]) total (docIdx + 1) bIdx
        (by simp only [List.length_append, List.length_cons, List.length_nil]; omega)
        hle
        (by simp only [List.length_append, List.length_cons, List.length_nil]; omega)
        with ⟨hc, he⟩
      exact ⟨hc, he⟩

/-- Every operation the copy loop issues is a bulk insert. -/
theorem copyLoop_trace_insert (df inf : Nat → Bool) (B : Nat) :
    ∀ (docs batch : List Nat) (total docIdx bIdx : Nat),
    ∀ e ∈ (copyLoop df inf B docs batch total docIdx bIdx).trace, ∃ n, e = Event.insert n := by
  intro docs
  induction docs with
  | nil =>
    intro batch total docIdx bIdx e he
    simp only [copyLoop] at he
    by_cases hb : 0 < batch.length
    · simp only [if_pos hb] at he
      by_cases hf : inf bIdx = true
      · simp [hf] at he
        exact ⟨batch.length, he⟩
      · simp only [Bool.not_eq_true] at hf
        simp only [hf, Bool.false_eq_true, if_false, List.mem_singleton] at he
        exact ⟨batch.length, he⟩
    · simp only [if_neg hb, List.not_mem_nil] at he
  | cons d rest ih =>
    intro batch total docIdx bIdx e he
    simp only [copyLoop] at he
    by_cases hd : df docIdx = true
    · simp [hd] at he
    · simp only [Bool.not_eq_true] at hd
      simp only [hd, Bool.false_eq_true, if_false] at he
      by_cases hfull : B ≤ (batch ++ [d]).length
      · simp only [if_pos hfull] at he
        by_cases hf : inf bIdx = true
        · simp only [hf, if_true, List.mem_singleton] at he
          exact ⟨(batch ++ [d]).length, by simpa using he⟩
        · simp only [Bool.not_eq_true] at hf
          simp only [hf, Bool.false_eq_true, if_false, List.mem_cons] at he
          rcases he with he | he
          · exact ⟨(batch ++ [d]).length, by simpa using he⟩
          · exact ih _ _ _ _ e he
      · simp only [if_neg hfull] at he
        exact ih _ _ _ _ e he

/-! ### Lemmas about the transfer stages -/

theorem effBatch_pos (b : Int) : 0 < effBatch b := by
  unfold effBatch
  by_cases h : b ≤ 0
  · simp [h]
  · simp only [if_neg h]
    omega

theorem transferAfterIndexes_success (env : Env) (B : Nat) (hB : 0 < B)
    (h : (transferAfterIndexes env B).err = none) :
    (transferAfterIndexes env B).count = env.sourceDocs.length ∧
    countInserts (transferAfterIndexes env B).trace
        = (env.sourceDocs.length + B - 1) / B := by
  unfold transferAfterIndexes at h ⊢
  by_cases hcf : env.countFails
  · simp [hcf] at h
  · simp only [hcf, Bool.false_eq_true, if_false] at h ⊢
    by_cases hz : env.sourceDocs.length == 0
    · simp only [hz, if_true]
      have hz' : env.sourceDocs.length = 0 := by simpa using hz
      have hdiv : (B - 1) / B = 0 := Nat.div_eq_of_lt (by omega)
      refine ⟨by simp [hz'], ?_⟩
      simp [countInserts, hz', hdiv]
    · simp only [hz, Bool.false_eq_true, if_false] at h ⊢
      by_cases hff : env.findFails
      · simp [hff] at h
      · simp only [hff, Bool.false_eq_true, if_false] at h ⊢
        have key := copyLoop_success env.decodeFails env.insertFails B hB
          env.sourceDocs [] 0 0 0 (by simpa using hB) h
        simp only [List.length_nil, Nat.zero_add, Nat.add_zero] at key
        rcases key with ⟨hc, hi⟩
        refine ⟨by simpa using hc, ?_⟩
        simpa [countInserts] using hi

theorem transferAfterDrop_success (env : Env) (B : Nat) (indexes : List IndexModel)
    (hB : 0 < B) (h : (transferAfterDrop env B indexes).err = none) :
    (transferAfterDrop env B indexes).count = env.sourceDocs.length ∧
    countInserts (transferAfterDrop env B indexes).trace
        = (env.sourceDocs.length + B - 1) / B := by
  unfold transferAfterDrop at h ⊢
  by_cases hn : 0 < indexes.length
  · simp only [if_pos hn] at h ⊢
    by_cases hci : env.createIndexesFails
    · simp [hci] at h
    · simp only [hci, Bool.false_eq_true, if_false] at h ⊢
      rcases transferAfterIndexes_success env B hB h with ⟨hc, hi⟩
      exact ⟨hc, by simpa [countInserts] using hi⟩
  · simp only [if_neg hn] at h ⊢
    exact transferAfterIndexes_success env B hB h

theorem transferAfterIndexRead_success (env : Env) (B : Nat) (indexes : List IndexModel)
    (hB : 0 < B) (h : (transferAfterIndexRead env B indexes).err = none) :
    (transferAfterIndexRead env B indexes).count = env.sourceDocs.length ∧
    countInserts (transferAfterIndexRead env B indexes).trace
        = (env.sourceDocs.length + B - 1) / B := by
  unfold transferAfterIndexRead at h ⊢
  by_cases hdo : env.destExists && env.overwrite
  · simp only [hdo, if_true] at h ⊢
    by_cases hdf : env.dropFails
    · simp [hdf] at h
    · simp only [hdf, Bool.false_eq_true, if_false] at h ⊢
      rcases transferAfterDrop_success env B indexes hB h with ⟨hc, hi⟩
      exact ⟨hc, by simpa [countInserts] using hi⟩
  · simp only [hdo, Bool.false_eq_true, if_false] at h ⊢
    exact transferAfterDrop_success env B indexes hB h

theorem transferAfterIndexes_trace (env : Env) (B : Nat) :
    ∀ e ∈ (transferAfterIndexes env B).trace,
      e = Event.countDocs ∨ e = Event.find ∨ ∃ n, e = Event.insert n := by
  intro e he
  unfold transferAfterIndexes at he
  by_cases hcf : env.countFails
  · simp [hcf] at he
    simp [he]
  · simp only [hcf, Bool.false_eq_true, if_false] at he
    by_cases hz : env.sourceDocs.length == 0
    · simp only [hz, if_true, List.mem_singleton] at he
      simp [he]
    · simp only [hz, Bool.false_eq_true, if_false] at he
      by_cases hff : env.findFails
      · simp only [hff, if_true, List.mem_cons, List.not_mem_nil, or_false] at he
        rcases he with he | he <;> simp [he]
      · simp only [hff, Bool.false_eq_true, if_false, List.mem_cons] at he
        rcases he with he | he | he
        · simp [he]
        · simp [he]
        · exact Or.inr (Or.inr (copyLoop_trace_insert _ _ _ _ _ _ _ _ e he))

theorem transferAfterDrop_trace (env : Env) (B : Nat) (indexes : List IndexModel) :
    ∀ e ∈ (transferAfterDrop env B indexes).trace,
      (∃ s, e = Event.createIndexes s) ∨ e = Event.countDocs ∨ e = Event.find ∨
        ∃ n, e = Event.insert n := by
  intro e he
  unfold transferAfterDrop at he
  by_cases hn : 0 < indexes.length
  · simp only [if_pos hn] at he
    by_cases hci : env.createIndexesFails
    · simp only [hci, if_true, List.mem_singleton] at he
      exact Or.inl ⟨_, he⟩
    · simp only [hci, Bool.false_eq_true, if_false, List.mem_cons] at he
      rcases he with he | he
      · exact Or.inl ⟨_, he⟩
      · exact Or.inr (transferAfterIndexes_trace env B e he)
  · simp only [if_neg hn] at he
    exact Or.inr (transferAfterIndexes_trace env B e he)

theorem transferAfterDrop_no_drop (env : Env) (B : Nat) (indexes : List IndexModel) :
    Event.drop ∉ (transferAfterDrop env B indexes).trace := by
  intro h
  rcases transferAfterDrop_trace env B indexes Event.drop h with ⟨s, hs⟩ | hs | hs | ⟨n, hn⟩
  · cases hs
  · cases hs
  · cases hs
  · cases hn

/-- The drop happens only when the destination collection existed and
overwrite is enabled, and it is the very first operation after the index
read. -/
theorem transferAfterIndexRead_drop (env : Env) (B : Nat) (indexes : List IndexModel)
    (h : Event.drop ∈ (transferAfterIndexRead env B indexes).trace) :
    env.destExists = true ∧ env.overwrite = true ∧
    ∃ tr, (transferAfterIndexRead env B indexes).trace = Event.drop :: tr := by
  unfold transferAfterIndexRead at h ⊢
  by_cases hdo : env.destExists && env.overwrite
  · rcases Bool.and_eq_true _ _ |>.mp hdo with ⟨h1, h2⟩
    refine ⟨h1, h2, ?_⟩
    simp only [hdo, if_true]
    by_cases hdf : env.dropFails
    · exact ⟨[], by simp [hdf]⟩
    · exact ⟨(transferAfterDrop env B indexes).trace, by simp [hdf]⟩
  · simp only [hdo, Bool.false_eq_true, if_false] at h
    exact absurd h (transferAfterDrop_no_drop env B indexes)

/-! ### Lemmas about the pool and the aggregation -/

theorem foldl_and_success (l : List CollectionTransferResult) :
    ∀ b : Bool, l.foldl (fun acc r => acc && r.success) b = (b && l.all (·.success)) := by
  induction l with
  | nil => intro b; simp
  | cons r rest ih =>
    intro b
    simp only [List.foldl_cons, List.all_cons, ih, Bool.and_assoc]

theorem foldl_add_docs (l : List CollectionTransferResult) :
    ∀ n : Nat, l.foldl (fun acc r => acc + r.documentsCount) n
      = n + (l.map (·.documentsCount)).sum := by
  induction l with
  | nil => intro n; simp
  | cons r rest ih =>
    intro n
    simp only [List.foldl_cons, List.map_cons, List.sum_cons, ih]
    omega

/-- `TransferCollection` fills in the requested collection name in every
branch, success or failure. -/
theorem TransferCollectionA_name (sf df : Bool) (env : Env) (n : String) :
    ((TransferCollectionA sf df env n).1).collectionName = n := by
  unfold TransferCollectionA
  by_cases h1 : sf
  · simp [h1]
  · by_cases h2 : df
    · simp [h1, h2]
    · simp only [h1, h2, Bool.false_eq_true, if_false]
      cases (transferCollection env).err <;> simp

theorem runWorker_names (envOf : String → Env) (connFails : String → Bool × Bool)
    (names : List String) :
    (runWorker envOf connFails names).map (·.collectionName) = names := by
  unfold runWorker
  rw [List.map_map]
  have : ((fun r : CollectionTransferResult => r.collectionName) ∘
      fun n => (TransferCollectionA (connFails n).1 (connFails n).2 (envOf n) n).1)
      = fun n => n := by
    funext n
    exact TransferCollectionA_name _ _ _ n
  rw [this]
  simp

theorem poolRun_names (envOf : String → Env) (connFails : String → Bool × Bool)
    (assignment : List (List String)) :
    (poolRun envOf connFails assignment).map (·.collectionName) = assignment.flatten := by
  unfold poolRun
  induction assignment with
  | nil => simp
  | cons ws rest ih =>
    simp only [List.map_cons, List.flatten_cons, List.map_append, ih,
      runWorker_names]

/-! ### Claim theorems -/

/-- C1: index fidelity round-trip fails on the code.  In `envC1` the source
carries one compound index whose native ordered key sequence is
`[(a,1), (b,-1)]`; the transfer succeeds, yet the index created on the
destination has key sequence `[(b,-1), (a,1)]` — `getCollectionIndexes`
decodes the key document into a `bson.M` Go map and rebuilds the `bson.D` by
ranging over that map, so the unspecified map iteration order (here: `b`
before `a`, a legitimate Go behaviour witnessed by `keyIter`, a permutation
of the native key) replaces the native order.  No equivalent index (same key
order) exists on the destination after this successful transfer. -/
theorem index_key_order_not_preserved :
    (transferCollection envC1).err = none ∧
    envC1.sourceRawIndexes.map RawIndex.key = [[("a", 1), ("b", -1)]] ∧
    createdIndexKeys (transferCollection envC1).trace = [[("b", -1), ("a", 1)]] ∧
    createdIndexKeys (transferCollection envC1).trace ≠
      envC1.sourceRawIndexes.map RawIndex.key ∧
    ∀ raw ∈ envC1.sourceRawIndexes, raw.keyIter.Perm raw.key := by
  refine ⟨rfl, rfl, rfl, by decide, by decide⟩

/-- C2 (counterexample): in `envC2` the second bulk insert fails mid-copy,
after 2 documents were already inserted — the inner `transferCollection`
returns the partial count 2 with an insert error — yet the
`CollectionTransferResult` built by `activities.TransferCollection` records
0 documents, not the partial count, contradicting the claim that the
outcome of a collection failing after the index read records the number of
documents transferred before the failure. -/
theorem partial_count_not_reported :
    (transferCollection envC2).err = some Err.insertError ∧
    (transferCollection envC2).count = 2 ∧
    ((TransferCollectionA false false envC2 "users").1).documentsCount = 0 ∧
    ((TransferCollectionA false false envC2 "users").1).documentsCount ≠
      (transferCollection envC2).count := by
  refine ⟨rfl, rfl, rfl, by decide⟩

/-- C2 (amended): every failed collection transfer — at whatever step,
including mid-copy failures after the index read — yields a
`CollectionTransferResult` recording zero documents: the wrapper returns
before assigning `DocumentsCount`, discarding the inner partial count, so
only successful collections contribute to the run total. -/
theorem failed_transfer_reports_zero_docs (sf df : Bool) (env : Env) (name : String)
    (h : ((TransferCollectionA sf df env name).1).success = false) :
    ((TransferCollectionA sf df env name).1).documentsCount = 0 := by
  unfold TransferCollectionA at h ⊢
  by_cases h1 : sf
  · simp [h1]
  · by_cases h2 : df
    · simp [h1, h2]
    · simp only [h1, h2, Bool.false_eq_true, if_false] at h ⊢
      cases he : (transferCollection env).err with
      | some e => simp [he]
      | none => simp [he] at h

/-- C2 (witness for the amended theorem): in `envC2` the transfer fails
mid-copy and the outcome indeed records zero documents. -/
theorem failed_transfer_reports_zero_docs_witness :
    ((TransferCollectionA false false envC2 "users").1).success = false ∧
    ((TransferCollectionA false false envC2 "users").1).documentsCount = 0 :=
  ⟨rfl, failed_transfer_reports_zero_docs false false envC2 "users" rfl⟩

/-- C3: when the k-th bulk insert of the copy loop fails (the batches before
it succeeded) and that batch is reached (`k * B < D`), the copy loop returns
exactly the `k * B` documents inserted by the k full batches completed before
the failing one, together with a terminal insert error. -/
theorem copier_failure_count (docs : List Nat) (B k : Nat)
    (hB : 0 < B) (hreach : k * B < docs.length) :
    (copyLoop (fun _ => false) (fun j => j == k) B docs [] 0 0 0).count = k * B ∧
    (copyLoop (fun _ => false) (fun j => j == k) B docs [] 0 0 0).err
      = some Err.insertError := by
  have := copyLoop_insert_fail B k hB docs [] 0 0 0 (by simpa using hB)
    (Nat.zero_le k) (by simpa using hreach)
  simpa using this

/-- C3 (witness): five documents, batch size 2, second insert (k = 1) fails:
the loop reports 2 documents and an insert error. -/
theorem copier_failure_count_witness :
    (copyLoop (fun _ => false) (fun j => j == 1) 2 [1, 2, 3, 4, 5] [] 0 0 0).count = 2 ∧
    (copyLoop (fun _ => false) (fun j => j == 1) 2 [1, 2, 3, 4, 5] [] 0 0 0).err
      = some Err.insertError := by
  have h := copier_failure_count [1, 2, 3, 4, 5] 2 1 (by decide) (by decide)
  simpa using h

/-- C4: if the destination collection exists and overwrite is disabled, the
transfer fails immediately with the conflict error, reports zero documents,
and its trace contains no destination-mutating operation (no drop, no index
creation, no insert) — the only operation issued is the existence check. -/
theorem conflict_aborts_without_mutation (env : Env)
    (hex : env.destExists = true) (hov : env.overwrite = false)
    (hlc : env.listCollectionsFails = false) :
    transferCollection env = ⟨0, some Err.conflictError, [Event.listCollections]⟩ ∧
    ((transferCollection env).trace.all fun e => !e.mutatesDestination) = true := by
  have heq : transferCollection env
      = ⟨0, some Err.conflictError, [Event.listCollections]⟩ := by
    unfold transferCollection
    simp [hex, hov, hlc]
  refine ⟨heq, ?_⟩
  rw [heq]
  rfl

/-- C4 (witness): concrete conflicting environment. -/
theorem conflict_aborts_without_mutation_witness :
    transferCollection { envOk with destExists := true }
      = ⟨0, some Err.conflictError, [Event.listCollections]⟩ :=
  (conflict_aborts_without_mutation { envOk with destExists := true } rfl rfl rfl).1

/-- C5: read-before-drop ordering.  (i) Whenever a drop is issued, the
transfer trace begins with existence check, index read, drop — so the source
index read strictly precedes the destructive drop — and the drop happens
only when the destination collection existed and overwrite was enabled;
(ii) if the index read fails (either the `Indexes().List` call or decoding
the returned index set), the transfer performs no destination mutation at
all. -/
theorem drop_after_index_read (env : Env) :
    (Event.drop ∈ (transferCollection env).trace →
      (transferCollection env).trace.take 3
          = [Event.listCollections, Event.listIndexes, Event.drop] ∧
      env.destExists = true ∧ env.overwrite = true) ∧
    ((env.listIndexesFails = true ∨
        (∃ e, getCollectionIndexes env.sourceRawIndexes = Except.error e)) →
      ((transferCollection env).trace.all fun ev => !ev.mutatesDestination) = true) := by
  unfold transferCollection
  by_cases h1 : env.listCollectionsFails
  · simp [h1, Event.mutatesDestination]
  · simp only [h1, Bool.false_eq_true, if_false]
    by_cases h2 : env.destExists && !env.overwrite
    · simp [h2, Event.mutatesDestination]
    · simp only [h2, Bool.false_eq_true, if_false]
      by_cases h3 : env.listIndexesFails
      · simp [h3, Event.mutatesDestination]
      · simp only [h3, Bool.false_eq_true, if_false]
        cases h4 : getCollectionIndexes env.sourceRawIndexes with
        | error e => simp [Event.mutatesDestination]
        | ok indexes =>
          constructor
          · intro hmem
            simp only [List.mem_cons] at hmem
            have hdropmem : Event.drop ∈
                (transferAfterIndexRead env (effBatch env.batchSize) indexes).trace := by
              rcases hmem with h | h | h
              · simp at h
              · simp at h
              · exact h
            rcases transferAfterIndexRead_drop env (effBatch env.batchSize) indexes
              hdropmem with ⟨ha, hb, tr, ht⟩
            refine ⟨?_, ha, hb⟩
            simp only [ht]
            rfl
          · intro hyp
            rcases hyp with hyp | ⟨e, hyp⟩
            · exact hyp.elim
            · exact Except.noConfusion hyp

/-- C5 (witness): with an existing destination and overwrite enabled, the
trace indeed starts with existence check, index read, drop. -/
theorem drop_after_index_read_witness :
    (transferCollection { envOk with destExists := true, overwrite := true }).trace.take 3
        = [Event.listCollections, Event.listIndexes, Event.drop] :=
  ((drop_after_index_read { envOk with destExists := true, overwrite := true }).1
    (by decide)).1

/-- C6: batch arithmetic.  Any transfer that ends without error copied all
`D` source documents and issued exactly `ceil(D / B)` bulk inserts, where
`B` is the batch size after the non-positive-defaults-to-100 correction;
moreover the boundary `D = 0` short-circuits the count-and-copy stage into
a zero-document success with zero inserts (so `0 < D < B` issues exactly
the one final partial insert, by the ceiling formula). -/
theorem batch_insert_arithmetic (env : Env) :
    ((transferCollection env).err = none →
      (transferCollection env).count = env.sourceDocs.length ∧
      countInserts (transferCollection env).trace
        = (env.sourceDocs.length + effBatch env.batchSize - 1) / effBatch env.batchSize) ∧
    (env.sourceDocs.length = 0 → env.countFails = false →
      transferAfterIndexes env (effBatch env.batchSize) = ⟨0, none, [Event.countDocs]⟩) := by
  constructor
  case right =>
    intro hz hcf
    unfold transferAfterIndexes
    simp [hz, hcf]
  case left =>
  intro herr
  unfold transferCollection at herr ⊢
  by_cases h1 : env.listCollectionsFails
  · simp [h1] at herr
  · simp only [h1, Bool.false_eq_true, if_false] at herr ⊢
    by_cases h2 : env.destExists && !env.overwrite
    · simp [h2] at herr
    · simp only [h2, Bool.false_eq_true, if_false] at herr ⊢
      by_cases h3 : env.listIndexesFails
      · simp [h3] at herr
      · simp only [h3, Bool.false_eq_true, if_false] at herr ⊢
        cases h4 : getCollectionIndexes env.sourceRawIndexes with
        | error e => rw [h4] at herr; simp at herr
        | ok indexes =>
          rw [h4] at herr
          simp only at herr
          rcases transferAfterIndexRead_success env (effBatch env.batchSize) indexes
            (effBatch_pos env.batchSize) herr with ⟨hc, hi⟩
          exact ⟨hc, by
            simp only [countInserts_listCollections, countInserts_listIndexes, hi]⟩

/-- C6 (witness): five documents with batch size 2 — success with count 5
and `ceil(5/2) = 3` bulk inserts; with zero documents, the count-and-copy
stage short-circuits successfully. -/
theorem batch_insert_arithmetic_witness :
    (transferCollection envOk).err = none ∧
    (transferCollection envOk).count = 5 ∧
    countInserts (transferCollection envOk).trace = 3 ∧
    transferAfterIndexes { envOk with sourceDocs := [] } 2
      = ⟨0, none, [Event.countDocs]⟩ := by
  have h := (batch_insert_arithmetic envOk).1 rfl
  have h0 := (batch_insert_arithmetic { envOk with sourceDocs := [] }).2 rfl rfl
  exact ⟨rfl, h.1, h.2, h0⟩

/-- C7: dispatcher exactly-once aggregation.  For any worker count (corrected
to 3 when non-positive, hence always at least one worker), any channel
schedule (an assignment of the input names to the workers, one consumption
per name) and any result-channel interleaving, the pool produces exactly one
`CollectionTransferResult` per input collection name: the multiset of
outcome names equals the multiset of input names, whatever each transfer's
success or failure. -/
theorem pool_exactly_once_outcomes (w : Int) (names : List String)
    (envOf : String → Env) (connFails : String → Bool × Bool)
    (assignment : List (List String)) (results : List CollectionTransferResult)
    (_hlen : assignment.length = (effWorkers w).toNat)
    (hperm : assignment.flatten.Perm names)
    (hres : results.Perm (poolRun envOf connFails assignment)) :
    0 < effWorkers w ∧ results.length = names.length ∧
    (results.map (·.collectionName)).Perm names := by
  refine ⟨?_, ?_, ?_⟩
  · unfold effWorkers
    by_cases h : w ≤ 0
    · simp [h]
    · simp only [if_neg h]
      omega
  · have h1 := hres.length_eq
    have h2 : (poolRun envOf connFails assignment).length = assignment.flatten.length := by
      have := congrArg List.length (poolRun_names envOf connFails assignment)
      simpa using this
    have h3 := hperm.length_eq
    omega
  · have hmap := hres.map (fun r : CollectionTransferResult => r.collectionName)
    rw [poolRun_names] at hmap
    exact hmap.trans hperm

/-- C7 (witness): two names over three workers (worker count 0 corrected to
3), one worker idle: exactly two outcomes, named "a" and "b". -/
theorem pool_exactly_once_outcomes_witness :
    0 < effWorkers 0 ∧
    (poolRun (fun _ => envOk) (fun _ => (false, false)) [["b"], ["a"], []]).length = 2 ∧
    ((poolRun (fun _ => envOk) (fun _ => (false, false)) [["b"], ["a"], []]).map
        (fun r => r.collectionName)).Perm ["a", "b"] := by
  have h := pool_exactly_once_outcomes 0 ["a", "b"] (fun _ => envOk)
    (fun _ => (false, false)) [["b"], ["a"], []]
    (poolRun (fun _ => envOk) (fun _ => (false, false)) [["b"], ["a"], []])
    rfl (by decide) (List.Perm.refl _)
  simpa using h

/-- C8: aggregation contract.  The run's overall success flag is true iff
every collected `CollectionTransferResult` succeeded, and the run's total
document count is the sum of all collected `DocumentsCount` fields. -/
theorem aggregation_contract (results : List CollectionTransferResult) :
    ((collectResults results).overallSuccess = true ↔
      ∀ r ∈ results, r.success = true) ∧
    (collectResults results).totalDocuments
      = (results.map (fun r => r.documentsCount)).sum := by
  unfold collectResults
  constructor
  · simp only [foldl_and_success, Bool.true_and, List.all_eq_true]
  · simp only [foldl_add_docs, Nat.zero_add]

/-- C9: a run whose resolved collection-name set is empty short-circuits
with the initial result: no outcome entries, total 0, overall success. -/
theorem empty_collection_set_run (paramsCollections sourceDbCollections : List String)
    (envOf : String → Env) (connFails : String → Bool × Bool)
    (assignment : List (List String))
    (h : GetCollections paramsCollections sourceDbCollections false false
        = Except.ok []) :
    runTransfer false paramsCollections sourceDbCollections false false
        envOf connFails assignment = Except.ok ⟨[], true, 0⟩ := by
  simp [runTransfer, h]

/-- C9 (witness): empty request and empty source database. -/
theorem empty_collection_set_run_witness :
    runTransfer false [] [] false false (fun _ => envOk) (fun _ => (false, false)) []
      = Except.ok ⟨[], true, 0⟩ :=
  empty_collection_set_run [] [] (fun _ => envOk) (fun _ => (false, false)) [] rfl

/-- C10: overwrite-flag noninterference.  When no destination collection of
the name exists, the transfer's entire observable result — document count,
error, and the full trace of destination operations — is the same whether
the overwrite flag is set or not: both the conflict branch and the drop are
guarded by existence. -/
theorem overwrite_noninterference (env : Env) (b₁ b₂ : Bool)
    (h : env.destExists = false) :
    transferCollection { env with overwrite := b₁ }
      = transferCollection { env with overwrite := b₂ } := by
  simp [transferCollection, transferAfterIndexRead, transferAfterDrop,
    transferAfterIndexes, h]

/-- C10 (witness): concrete environment without a conflicting destination
collection, overwrite on versus off. -/
theorem overwrite_noninterference_witness :
    transferCollection { envOk with overwrite := true }
      = transferCollection { envOk with overwrite := false } :=
  overwrite_noninterference envOk true false rfl

end MongoTransfert
